import Mathlib

/-!
Verification of the swc JS-transformer plugin bridge (`src/lib.rs`).

The bridge entry point `process` receives a host `Program` together with an
optional configuration payload, resolves the configuration
(`build_transform_context`), serializes the AST to JSON, binds it into a fresh
JavaScript context under the global name `ast`, assembles an executable script
from the bundled visitor framework, the user's transform source and a
synthesized trailer, evaluates it and deserializes the evaluation result back
into a `Program`.

External capabilities (the filesystem, the boa JavaScript engine, and the
opaque host `Program` type together with its serde JSON codec) are modelled as
parameters of the embedding (`HostEnv`); everything else is translated from
the source.
-/

namespace SwcJsTransformer

/-! ### Character classes of `JS_VISITOR_IMPORT_REGEX`

The source pattern (lib.rs line 12) is

  `import(?:([\w*{Visitor}\n\r\t, ]+)[\s*]from)?[\s*](?:["']@swc\/core\/Visitor["'])?`

Both the binding group and the quoted module name are optional, so a match
only requires the literal `import` followed either by one `[\s*]` character,
or by the group `[\w*{Visitor}\n\r\t, ]+` then `[\s*]` then `from` then one
more `[\s*]` character.  `\w` and `\s` are modelled over ASCII. -/

/-- The one-character class `[\s*]` of the import regex: whitespace or an
asterisk. -/
def wsStar (c : Char) : Bool :=
  c = ' ' || c = '\t' || c = '\n' || c = '\r' || c = '\x0b' || c = '\x0c' || c = '*'

/-- The character class `[\w*{Visitor}\n\r\t, ]` of the import regex: word
characters, asterisk, braces, the letters of `Visitor` (already word
characters), newline, carriage return, tab, comma and space. -/
def importGroupChar (c : Char) : Bool :=
  c.isAlphanum || c = '_' || c = '*' || c = '\x7b' || c = '\x7d' ||
  c = '\n' || c = '\r' || c = '\t' || c = ',' || c = ' '

/-- The head of the remaining input is a `[\s*]` character. -/
def headWsStar : List Char → Bool
  | c :: _ => wsStar c
  | [] => false

/-- Matches `[\s*]from[\s*]`: the closing part of the optional binding group
followed by the mandatory `[\s*]` (the trailing quoted module name of the
pattern is optional and can always match the empty string). -/
def importFromTail : List Char → Bool
  | c :: rest =>
      wsStar c && ('f' :: 'r' :: 'o' :: 'm' :: []).isPrefixOf rest &&
        headWsStar (rest.drop 4)
  | [] => false

/-- Matches `([\w*{Visitor}\n\r\t, ]+)[\s*]from[\s*]`: some non-empty prefix
of group characters followed by `importFromTail`. -/
def importGroupScan : List Char → Bool
  | [] => false
  | c :: rest => importGroupChar c && (importFromTail rest || importGroupScan rest)

/-- The regex can match starting right after a literal `import`. -/
def afterImport (s : List Char) : Bool :=
  headWsStar s || importGroupScan s

/-- Unanchored search for `JS_VISITOR_IMPORT_REGEX`: some suffix of the input
starts with `import` and continues with `afterImport`. -/
def importRegexSearch : List Char → Bool
  | [] => false
  | c :: rest =>
      (('i' :: 'm' :: 'p' :: 'o' :: 'r' :: 't' :: []).isPrefixOf (c :: rest) &&
        afterImport ((c :: rest).drop 6))
      || importRegexSearch rest

/-- Matching of `JS_VISITOR_IMPORT_REGEX.is_match` on one line of the user transform
(lib.rs line 95). -/
def jsVisitorImportIsMatch (line : String) : Bool :=
  importRegexSearch line.data

/-! ### Rust `str::lines` and `Vec::join` -/

/-- Split a character list at every newline.  Always returns at least one
piece; a trailing newline contributes a final empty piece. -/
def splitNl : List Char → List (List Char)
  | [] => [[]]
  | c :: rest =>
      if c = '\n' then [] :: splitNl rest
      else
        match splitNl rest with
        | l :: ls => (c :: l) :: ls
        | [] => [[c]]

/-- Strip one trailing carriage return, as Rust's `str::lines` does. -/
def stripCr (l : List Char) : List Char :=
  if l.getLast? = some '\r' then l.dropLast else l

/-- Rust's `str::lines`: split on newline, drop the final empty piece produced
by a trailing newline (the empty string yields no lines at all), and strip one
trailing carriage return from each line. -/
def rustLines (s : String) : List String :=
  let parts := splitNl s.data
  let parts := if parts.getLast? = some [] then parts.dropLast else parts
  parts.map fun l => String.mk (stripCr l)

/-- Rust's `Vec::<&str>::join("\n")`. -/
def joinNl : List String → String
  | [] => ""
  | [l] => l
  | l :: l2 :: rest => l ++ "\n" ++ joinNl (l2 :: rest)

/-- Rust's `str::starts_with` on string literals. -/
def strStartsWith (s p : String) : Bool :=
  p.data.isPrefixOf s.data

/-! ### The interchange codec

Modelled from the spec: the host `Program` type (from `swc_core`, outside this
repository) is "an opaque, already-well-formed syntax tree value" whose
interchange form is "a JSON-compatible textual encoding of the host tree",
written and read with `serde_json::to_string` / `serde_json::from_str`.  The
model is a JSON value tree with compact serde-style printing: strings escape
quote and backslash, numbers are modelled as integers. -/

inductive Json where
  | null : Json
  | bool : Bool → Json
  | num : Int → Json
  | str : List Char → Json
  | arr : List Json → Json
  | obj : List (List Char × Json) → Json
deriving Repr, Inhabited

/-- The decimal digit character for `d < 10`. -/
def digitChar (d : Nat) : Char := Char.ofNat (48 + d)

/-- Decimal digits of a natural number, most significant first. -/
def natDigits (n : Nat) : List Char :=
  if _h : n < 10 then [digitChar n]
  else natDigits (n / 10) ++ [digitChar (n % 10)]
decreasing_by exact Nat.div_lt_self (by omega) (by omega)

/-- Decimal text of an integer. -/
def intDigits (n : Int) : List Char :=
  if n < 0 then '-' :: natDigits n.natAbs else natDigits n.natAbs

/-- JSON string escaping of one character: quote and backslash get a
preceding backslash, everything else is printed verbatim. -/
def escChar (c : Char) : List Char :=
  if c = '"' then ['\\', '"']
  else if c = '\\' then ['\\', '\\']
  else [c]

/-- JSON string escaping. -/
def escString : List Char → List Char
  | [] => []
  | c :: rest => escChar c ++ escString rest

mutual

/-- serde-style compact JSON printing. -/
def printJson : Json → List Char
  | .null => 'n' :: 'u' :: 'l' :: 'l' :: []
  | .bool true => 't' :: 'r' :: 'u' :: 'e' :: []
  | .bool false => 'f' :: 'a' :: 'l' :: 's' :: 'e' :: []
  | .num n => intDigits n
  | .str s => '"' :: (escString s ++ ['"'])
  | .arr xs => '[' :: (printElems xs ++ [']'])
  | .obj fs => '\x7b' :: (printFields fs ++ ['\x7d'])

/-- Comma-separated printing of array elements. -/
def printElems : List Json → List Char
  | [] => []
  | [x] => printJson x
  | x :: y :: rest => printJson x ++ ',' :: printElems (y :: rest)

/-- Comma-separated printing of object fields (`"key":value`). -/
def printFields : List (List Char × Json) → List Char
  | [] => []
  | [(k, v)] => '"' :: (escString k ++ '"' :: ':' :: printJson v)
  | (k, v) :: f :: rest =>
      ('"' :: (escString k ++ '"' :: ':' :: printJson v)) ++ ',' :: printFields (f :: rest)

end

/-- JSON inter-token whitespace. -/
def jsonWs (c : Char) : Bool := c = ' ' || c = '\t' || c = '\n' || c = '\r'

/-- Skip JSON inter-token whitespace. -/
def skipWs : List Char → List Char
  | c :: rest => if jsonWs c then skipWs rest else c :: rest
  | [] => []

/-- Parse the body of a JSON string after the opening quote, handling the
`\"` and `\\` escapes the printer produces. -/
def parseStringBody : List Char → Option (List Char × List Char)
  | [] => none
  | c :: rest =>
    if c = '\\' then
      match rest with
      | [] => none
      | d :: rest2 =>
        if d = '"' || d = '\\' then
          (parseStringBody rest2).map fun p => (d :: p.1, p.2)
        else none
    else if c = '"' then some ([], rest)
    else (parseStringBody rest).map fun p => (c :: p.1, p.2)

/-- Does the input start with a decimal digit? -/
def isDigitHead : List Char → Bool
  | c :: _ => c.isDigit
  | [] => false

/-- The value of a digit character. -/
def digitVal (c : Char) : Nat := c.toNat - 48

/-- Consume a maximal run of decimal digits, accumulating their value. -/
def parseDigitsAux : Nat → List Char → Nat × List Char
  | acc, c :: rest =>
      if c.isDigit then parseDigitsAux (acc * 10 + digitVal c) rest
      else (acc, c :: rest)
  | acc, [] => (acc, [])

/-- Match an expected literal character sequence. -/
def expectChars : List Char → List Char → Option (List Char)
  | [], s => some s
  | c :: cs, d :: s => if d = c then expectChars cs s else none
  | _ :: _, [] => none

mutual

/-- Fueled recursive-descent JSON value parsing.  Returns the parsed value and
the unconsumed remainder. -/
def parseValue : Nat → List Char → Option (Json × List Char)
  | 0, _ => none
  | fuel + 1, s =>
    match skipWs s with
    | [] => none
    | c :: rest =>
      if c = 'n' then (expectChars ('u' :: 'l' :: 'l' :: []) rest).map fun r => (.null, r)
      else if c = 't' then (expectChars ('r' :: 'u' :: 'e' :: []) rest).map fun r => (.bool true, r)
      else if c = 'f' then
        (expectChars ('a' :: 'l' :: 's' :: 'e' :: []) rest).map fun r => (.bool false, r)
      else if c = '"' then (parseStringBody rest).map fun p => (.str p.1, p.2)
      else if c = '-' then
        if isDigitHead rest then
          let p := parseDigitsAux 0 rest
          some (.num (-(p.1 : Int)), p.2)
        else none
      else if c = '[' then
        match skipWs rest with
        | [] => none
        | d :: rest2 =>
          if d = ']' then some (.arr [], rest2)
          else (parseElems fuel rest).map fun p => (.arr p.1, p.2)
      else if c = '\x7b' then
        match skipWs rest with
        | [] => none
        | d :: rest2 =>
          if d = '\x7d' then some (.obj [], rest2)
          else (parseFields fuel rest).map fun p => (.obj p.1, p.2)
      else if c.isDigit then
        let p := parseDigitsAux 0 (c :: rest)
        some (.num (p.1 : Int), p.2)
      else none

/-- Parse one or more comma-separated array elements up to the closing
bracket. -/
def parseElems : Nat → List Char → Option (List Json × List Char)
  | 0, _ => none
  | fuel + 1, s =>
    (parseValue fuel s).bind fun p =>
      match skipWs p.2 with
      | [] => none
      | c :: rest =>
        if c = ',' then (parseElems fuel rest).map fun q => (p.1 :: q.1, q.2)
        else if c = ']' then some ([p.1], rest)
        else none

/-- Parse one or more comma-separated object fields up to the closing
brace. -/
def parseFields : Nat → List Char → Option (List (List Char × Json) × List Char)
  | 0, _ => none
  | fuel + 1, s =>
    match skipWs s with
    | [] => none
    | c :: rest =>
      if c = '"' then
        (parseStringBody rest).bind fun pk =>
          match skipWs pk.2 with
          | [] => none
          | d :: rest2 =>
            if d = ':' then
              (parseValue fuel rest2).bind fun pv =>
                match skipWs pv.2 with
                | [] => none
                | e :: rest3 =>
                  if e = ',' then
                    (parseFields fuel rest3).map fun q => ((pk.1, pv.1) :: q.1, q.2)
                  else if e = '\x7d' then some ([(pk.1, pv.1)], rest3)
                  else none
            else none
      else none

end

/-- Parsing as `serde_json::from_str` does on a whole input: one JSON value followed only by
whitespace. -/
def parseJson (s : String) : Option Json :=
  match parseValue (s.length + 1) s.data with
  | some (j, rest) => if skipWs rest = [] then some j else none
  | none => none

/-- Printing as `serde_json::to_string` does on the modelled tree. -/
def serializeJson (j : Json) : String := String.mk (printJson j)

/-! ### Plugin configuration (lib.rs lines 15-29) -/

/-- The struct `TransformPluginConfig`: camelCase keys, all fields optional, defaulting
to `None` (`#[serde(rename_all = "camelCase", default)]`). -/
structure TransformPluginConfig where
  transform_impl_path : Option String
  visitor_class_name : Option String
deriving Repr, DecidableEq, Inhabited

/-- serde's reading of an `Option<String>` field value: a JSON string or
`null`; anything else is a type error. -/
def asOptString : Json → Option (Option String)
  | .str s => some (some (String.mk s))
  | .null => some none
  | _ => none

/-- serde's derived field loop for `TransformPluginConfig`: known camelCase
keys fill the two fields (a duplicate or ill-typed known field is an error),
unknown fields are ignored, missing fields default to `None`. -/
def readConfigFields : List (List Char × Json) → Option String → Option String → Bool → Bool →
    Except String TransformPluginConfig
  | [], path, name, _, _ => .ok ⟨path, name⟩
  | (k, v) :: rest, path, name, seenPath, seenName =>
    if k = "transformImplPath".data then
      if seenPath then .error "duplicate field transformImplPath"
      else
        match asOptString v with
        | some x => readConfigFields rest x name true seenName
        | none => .error "invalid type for transformImplPath"
    else if k = "visitorClassName".data then
      if seenName then .error "duplicate field visitorClassName"
      else
        match asOptString v with
        | some x => readConfigFields rest path x seenPath true
        | none => .error "invalid type for visitorClassName"
    else readConfigFields rest path name seenPath seenName

/-- Parsing `serde_json::from_str::<TransformPluginConfig>`: the payload must be a
JSON object; its fields are read by `readConfigFields`. -/
def parseConfig (s : String) : Except String TransformPluginConfig :=
  match parseJson s with
  | some (.obj fields) => readConfigFields fields none none false false
  | some _ => .error "invalid type: expected struct TransformPluginConfig"
  | none => .error "expected value"

/-! ### Context resolution (lib.rs lines 151-205) -/

/-- The struct `TransformContext` (lib.rs lines 31-34). -/
structure TransformContext where
  transform_impl : String
  transform_visitor_class_name : String
deriving Repr, DecidableEq, Inhabited

/-- Path resolution `PathBuf::from("/cwd")` followed by `push(path)`: a relative path is
appended under `/cwd`, an absolute path replaces the base wholesale. -/
def resolvePath (path : String) : String :=
  if strStartsWith path "/" then path else "/cwd/" ++ path

/-- Diagnostic emitted when the configuration payload is absent. -/
def configMissingMsg : String :=
  "Plugin config object is not supplied, skipping transform"

/-- Diagnostic emitted when the configuration payload does not deserialize. -/
def configMalformedMsg (err : String) : String :=
  "Failed to deserialize plugin config object, skipping transform " ++ err

/-- Diagnostic emitted when `transformImplPath` is unset. -/
def implPathMissingMsg : String :=
  "Transform impl path is not supplied, skipping transform"

/-- Diagnostic emitted when the transform source file cannot be read. -/
def implReadErrMsg (err : String) : String :=
  "Failed to read transform impl from path, skipping transform " ++ err

/-- Diagnostic emitted when AST serialization fails. -/
def serializeErrMsg (err : String) : String :=
  "Failed to serialize AST into JSON, cannot perform transform " ++ err

/-- Diagnostic emitted when binding the `ast` global fails. -/
def bindErrMsg (err : String) : String :=
  "Failed to set AST into JS context, cannot perform transform " ++ err

/-- Diagnostic emitted when evaluating the assembled script fails. -/
def evalErrMsg (err : String) : String :=
  "Failed to run transform, cannot perform transform " ++ err

/-- Diagnostic emitted when the evaluation result does not deserialize into a
`Program`. -/
def deserializeErrMsg (err : String) : String :=
  "Failed to deserialize transformed AST, cannot perform transform " ++ err

/-- The function `build_transform_context` (lib.rs lines 151-205), with the filesystem
(`fs::read_to_string`) passed as a capability.  Returns the optional context
together with the diagnostics emitted through the handler. -/
def build_transform_context (readFile : String → Except String String) :
    Option String → Option TransformContext × List String
  | none => (none, [configMissingMsg])
  | some config_str =>
    match parseConfig config_str with
    | .error err => (none, [configMalformedMsg err])
    | .ok deserialized_config =>
      match deserialized_config.transform_impl_path with
      | some transform_impl_path =>
        match readFile (resolvePath transform_impl_path) with
        | .ok content =>
            (some ⟨content, deserialized_config.visitor_class_name.getD "TransformVisitor"⟩, [])
        | .error err => (none, [implReadErrMsg err])
      | none => (none, [implPathMissingMsg])

/-! ### Program assembly (lib.rs lines 80-108) -/

/-- The framework source with its CommonJS packaging lines removed: every line
starting with `exports.` or with the `Object.defineProperty` marker line is
dropped (lib.rs lines 82-87). -/
def visitorFrameworkLines (frameworkText : String) : List String :=
  (rustLines frameworkText).filter fun line =>
    !(strStartsWith line "exports.") &&
    !(strStartsWith line "Object.defineProperty(exports, \"__esModule\", \x7b value: true \x7d);")

/-- The user transform source with every line matched by
`JS_VISITOR_IMPORT_REGEX` removed (lib.rs lines 92-95). -/
def transformImplLines (transform_impl : String) : List String :=
  (rustLines transform_impl).filter fun line => !jsVisitorImportIsMatch line

/-- The synthesized trailer expression (lib.rs lines 102-105): parse the `ast`
global, construct the visitor class, visit the whole program and re-serialize
the result as the script's final expression value. -/
def trailerCode (className : String) : String :=
  "JSON.stringify((new " ++ className ++ "()).visitProgram(JSON.parse(ast)))"

/-- The lines of the assembled program, in order: sanitized framework,
sanitized user transform, trailer (lib.rs lines 97-106). -/
def assembledLines (frameworkText : String) (ctx : TransformContext) : List String :=
  (visitorFrameworkLines frameworkText ++ transformImplLines ctx.transform_impl) ++
    [trailerCode ctx.transform_visitor_class_name]

/-- The assembled program text: the assembled lines joined with newlines
(lib.rs line 108). -/
def assembleCode (frameworkText : String) (ctx : TransformContext) : String :=
  joinNl (assembledLines frameworkText ctx)

/-! ### The entry point (lib.rs lines 36-149) -/

/-- A boa `JsValue` as far as the bridge inspects it: either a string or some
non-string value. -/
inductive JsValue where
  | str : String → JsValue
  | nonString : JsValue
deriving Repr, DecidableEq, Inhabited

/-- boa's `JsValue::as_string` (composed with `to_std_string_escaped`):
`some` exactly on strings. -/
def JsValue.asString : JsValue → Option String
  | .str s => some s
  | .nonString => none

/-- The external capabilities `process` relies on, over an opaque host
`Program` type `P`: the bundled framework text (`include_str!` of
`@swc/core/Visitor.js`, a file outside this repository), the serde codec of
the host tree, the filesystem, and the boa engine's global binding and
evaluation. -/
structure HostEnv (P : Type) where
  frameworkText : String
  serializeAst : P → Except String String
  deserializeAst : String → Except String P
  readFile : String → Except String String
  bindAst : String → Except String Unit
  evalJs : String → Except String JsValue

/-- The plugin entry point `process` (lib.rs lines 36-149).  Returns `some`
(the resulting program and the diagnostics emitted through the handler) on
every path the Rust function returns on, and `none` on the one path where the
Rust function panics: when the evaluation succeeds with a non-string value,
`transform_result.unwrap().as_string().unwrap()` (lib.rs lines 123-127)
unwraps `None`. -/
def process {P : Type} (env : HostEnv P) (program : P) (configPayload : Option String) :
    Option (P × List String) :=
  match build_transform_context env.readFile configPayload with
  | (none, diags) => some (program, diags)
  | (some transform_context, diags) =>
    match env.serializeAst program with
    | .error err => some (program, diags ++ [serializeErrMsg err])
    | .ok serde_serialized_ast =>
      match env.bindAst serde_serialized_ast with
      | .error err => some (program, diags ++ [bindErrMsg err])
      | .ok _ =>
        match env.evalJs (assembleCode env.frameworkText transform_context) with
        | .error err => some (program, diags ++ [evalErrMsg err])
        | .ok value =>
          match value.asString with
          | none => none
          | some transform_result =>
            match env.deserializeAst transform_result with
            | .error err => some (program, diags ++ [deserializeErrMsg err])
            | .ok transformed_program => some (transformed_program, diags)

/-! ### Further definitions used only in the statements and proofs below -/

/-- Does the haystack contain the needle as a contiguous subsequence? -/
def hasInfix (needle : List Char) : List Char → Bool
  | [] => needle.isEmpty
  | c :: rest => needle.isPrefixOf (c :: rest) || hasInfix needle rest

/-- Does the line mention the framework module `@swc/core/Visitor` by name at
all?  An import statement referencing that module necessarily contains this
text. -/
def mentionsVisitorModule (line : String) : Bool :=
  hasInfix "@swc/core/Visitor".data line.data

/-- Declarative reading of what can follow the literal `import` in a match of
the import regex: either one `[\s*]` character, or a non-empty run of
`[\w*{Visitor}\n\r\t, ]` characters, one `[\s*]` character, the literal
`from`, and one more `[\s*]` character.  The quoted module name of the
pattern is optional, so it imposes no constraint. -/
def ImportShapeTail (post : List Char) : Prop :=
  (∃ c t, post = c :: t ∧ wsStar c = true) ∨
  (∃ g c rest, post = g ++ c :: ('f' :: 'r' :: 'o' :: 'm' :: rest) ∧ g ≠ [] ∧
    (∀ x ∈ g, importGroupChar x = true) ∧ wsStar c = true ∧
    (∃ d t, rest = d :: t ∧ wsStar d = true))

/-- Declarative reading of a line matched by the import regex: somewhere in
the line the literal `import` occurs, followed by an `ImportShapeTail`. -/
def ImportShape (line : String) : Prop :=
  ∃ pre post, line.data = pre ++ ('i' :: 'm' :: 'p' :: 'o' :: 'r' :: 't' :: post) ∧
    ImportShapeTail post

/-- The numeric value of a run of digit characters, extending an accumulated
prefix value. -/
def digitsValAux (acc : Nat) (ds : List Char) : Nat :=
  ds.foldl (fun a c => a * 10 + digitVal c) acc

mutual

/-- Structural size of a JSON value, a lower bound for the parsing fuel. -/
def jsonSize : Json → Nat
  | .arr xs => 1 + elemsSize xs
  | .obj fs => 1 + fieldsSize fs
  | _ => 1

/-- Structural size of an array's elements. -/
def elemsSize : List Json → Nat
  | [] => 0
  | x :: rest => 1 + jsonSize x + elemsSize rest

/-- Structural size of an object's fields. -/
def fieldsSize : List (List Char × Json) → Nat
  | [] => 0
  | (_, v) :: rest => 1 + jsonSize v + fieldsSize rest

end

/-- A configuration payload naming only the transform source file. -/
def implOnlyPayload : String := "\x7b\"transformImplPath\":\"t.js\"\x7d"

/-- A configuration payload naming the transform source file and a custom
visitor class. -/
def namedVisitorPayload : String :=
  "\x7b\"transformImplPath\":\"t.js\",\"visitorClassName\":\"MyVisitor\"\x7d"

/-- A configuration payload naming only a visitor class, leaving the
transform source path unset. -/
def nameOnlyPayload : String := "\x7b\"visitorClassName\":\"V\"\x7d"

/-- A host environment whose engine evaluation fails. -/
def evalFailEnv : HostEnv Unit :=
  ⟨"", fun _ => .ok "ast", fun _ => .error "unused", fun _ => .ok "impl",
    fun _ => .ok (), fun _ => .error "boom"⟩

/-- A host environment whose filesystem read fails. -/
def readFailEnv : HostEnv Unit :=
  ⟨"", fun _ => .ok "ast", fun _ => .error "unused", fun _ => .error "ENOENT",
    fun _ => .ok (), fun _ => .error "boom"⟩

/-- A host environment whose engine evaluation succeeds with a non-string
value, as happens when the trailer's `JSON.stringify` returns `undefined`. -/
def panicEnv : HostEnv Unit :=
  ⟨"", fun _ => .ok "ast", fun _ => .error "unused", fun _ => .ok "impl",
    fun _ => .ok (), fun _ => .ok JsValue.nonString⟩

/-- A filesystem capability that reads every path successfully. -/
def okReadFile : String → Except String String := fun _ => .ok "code"

/-- The text `joinNl` appends after a first line: nothing, or a newline and
the remaining joined lines. -/
def joinNlTail : List String → String
  | [] => ""
  | l :: rest => "\n" ++ joinNl (l :: rest)

/-! ## Helper lemmas -/

theorem build_transform_context_none_ne_nil {readFile : String → Except String String}
    {payload : Option String} {diags : List String}
    (h : build_transform_context readFile payload = (none, diags)) : diags ≠ [] := by
  intro hnil
  subst hnil
  cases payload with
  | none => simp [build_transform_context] at h
  | some s =>
      simp only [build_transform_context] at h
      split at h <;> try (split at h) <;> try (split at h)
      all_goals simp_all

theorem readConfigFields_unknown (fields : List (List Char × Json)) :
    ∀ (path name : Option String) (seenPath seenName : Bool),
      (∀ kv ∈ fields,
          kv.1 ≠ "transformImplPath".data ∧ kv.1 ≠ "visitorClassName".data) →
      readConfigFields fields path name seenPath seenName = .ok ⟨path, name⟩ := by
  induction fields with
  | nil => intro _ _ _ _ _; rfl
  | cons kv rest ih =>
      intro path name seenPath seenName hk
      obtain ⟨h1, h2⟩ := hk kv (by simp)
      obtain ⟨k, v⟩ := kv
      simp only [readConfigFields, if_neg h1, if_neg h2]
      exact ih path name seenPath seenName fun kv hm => hk kv (by simp [hm])

theorem joinNl_go (as : List String) : ∀ acc : String,
    String.intercalate.go acc "\n" as = acc ++ joinNlTail as := by
  induction as with
  | nil => intro acc; simp [String.intercalate.go, joinNlTail]
  | cons a as ih =>
      intro acc
      rw [String.intercalate.go, ih]
      cases as with
      | nil => simp [joinNlTail, joinNl, String.append_assoc]
      | cons b bs => simp [joinNlTail, joinNl, String.append_assoc]

theorem joinNl_eq_intercalate (ls : List String) : joinNl ls = String.intercalate "\n" ls := by
  cases ls with
  | nil => rfl
  | cons a as =>
      rw [String.intercalate, joinNl_go]
      cases as with
      | nil => simp [joinNlTail, joinNl]
      | cons b bs => simp [joinNlTail, joinNl, String.append_assoc]

theorem digitChar_isDigit {d : Nat} (h : d < 10) : (digitChar d).isDigit = true := by
  interval_cases d <;> decide

theorem digitVal_digitChar {d : Nat} (h : d < 10) : digitVal (digitChar d) = d := by
  interval_cases d <;> decide

theorem natDigits_digits (n : Nat) : ∀ c ∈ natDigits n, c.isDigit = true := by
  induction n using Nat.strong_induction_on with
  | _ n ih =>
      rw [natDigits]
      split
      · intro c hc
        rw [List.mem_singleton] at hc
        subst hc
        exact digitChar_isDigit (by omega)
      · intro c hc
        rcases List.mem_append.mp hc with hl | hr
        · exact ih (n / 10) (Nat.div_lt_self (by omega) (by omega)) c hl
        · rw [List.mem_singleton] at hr
          subst hr
          exact digitChar_isDigit (Nat.mod_lt n (by omega))

theorem natDigits_ne_nil (n : Nat) : natDigits n ≠ [] := by
  rw [natDigits]
  split
  · simp
  · simp

theorem parseDigitsAux_append (ds : List Char) :
    ∀ (acc : Nat) (rest : List Char), (∀ c ∈ ds, c.isDigit = true) →
      isDigitHead rest = false →
      parseDigitsAux acc (ds ++ rest) = (digitsValAux acc ds, rest) := by
  induction ds with
  | nil =>
      intro acc rest _ hrest
      cases rest with
      | nil => rfl
      | cons c r =>
          simp only [isDigitHead] at hrest
          rw [List.nil_append, parseDigitsAux, hrest]
          simp [digitsValAux]
  | cons d ds' ih =>
      intro acc rest hds hrest
      have hd : d.isDigit = true := hds d (by simp)
      rw [List.cons_append, parseDigitsAux, hd, if_pos rfl]
      have hv : digitsValAux acc (d :: ds') = digitsValAux (acc * 10 + digitVal d) ds' := by
        simp [digitsValAux]
      rw [hv]
      exact ih _ rest (fun c hc => hds c (by simp [hc])) hrest

theorem digitsValAux_append (ds es : List Char) (acc : Nat) :
    digitsValAux acc (ds ++ es) = digitsValAux (digitsValAux acc ds) es := by
  simp [digitsValAux, List.foldl_append]

theorem digitsValAux_natDigits (n : Nat) : digitsValAux 0 (natDigits n) = n := by
  induction n using Nat.strong_induction_on with
  | _ n ih =>
      rw [natDigits]
      split
      · next h =>
          simp [digitsValAux, digitVal_digitChar h]
      · next h =>
          rw [digitsValAux_append, ih (n / 10) (Nat.div_lt_self (by omega) (by omega))]
          simp only [digitsValAux, List.foldl_cons, List.foldl_nil,
            digitVal_digitChar (Nat.mod_lt n (by omega))]
          omega

theorem parseDigitsAux_natDigits (n : Nat) (rest : List Char)
    (hrest : isDigitHead rest = false) :
    parseDigitsAux 0 (natDigits n ++ rest) = (n, rest) := by
  rw [parseDigitsAux_append (natDigits n) 0 rest (natDigits_digits n) hrest,
    digitsValAux_natDigits]

theorem isDigit_not_special {c : Char} (h : c.isDigit = true) :
    jsonWs c = false ∧ c ≠ 'n' ∧ c ≠ 't' ∧ c ≠ 'f' ∧ c ≠ '"' ∧ c ≠ '-' ∧
      c ≠ '[' ∧ c ≠ '\x7b' ∧ c ≠ ']' ∧ c ≠ '\x7d' := by
  have hne : ∀ d : Char, d.isDigit = false → c ≠ d := by
    intro d hd he
    subst he
    rw [h] at hd
    cases hd
  refine ⟨?_, hne 'n' (by decide), hne 't' (by decide), hne 'f' (by decide),
    hne '"' (by decide), hne '-' (by decide), hne '[' (by decide),
    hne '\x7b' (by decide), hne ']' (by decide), hne '\x7d' (by decide)⟩
  cases hws : jsonWs c
  · rfl
  · exfalso
    simp only [jsonWs, Bool.or_eq_true, decide_eq_true_eq] at hws
    rcases hws with (((h1 | h1) | h1) | h1) <;> (subst h1; simp at h)

theorem skipWs_cons {c : Char} (h : jsonWs c = false) (t : List Char) :
    skipWs (c :: t) = c :: t := by
  rw [skipWs, h]
  simp

theorem parseStringBody_round (s : List Char) : ∀ rest,
    parseStringBody (escString s ++ '"' :: rest) = some (s, rest) := by
  induction s with
  | nil =>
      intro rest
      rw [escString, List.nil_append, parseStringBody.eq_def]
      simp
  | cons c s' ih =>
      intro rest
      by_cases h1 : c = '"'
      · subst h1
        have he : escString ('"' :: s') = '\\' :: '"' :: escString s' := by
          simp [escString, escChar]
        rw [he, List.cons_append, List.cons_append, parseStringBody.eq_def]
        simp [ih rest]
      · by_cases h2 : c = '\\'
        · subst h2
          have he : escString ('\\' :: s') = '\\' :: '\\' :: escString s' := by
            simp [escString, escChar]
          rw [he, List.cons_append, List.cons_append, parseStringBody.eq_def]
          simp [ih rest]
        · have he : escString (c :: s') = c :: escString s' := by
            simp [escString, escChar, h1, h2]
          rw [he, List.cons_append, parseStringBody.eq_def]
          simp [h1, h2, ih rest]

theorem printElems_cons (x : Json) (xs : List Json) :
    ∃ u, printElems (x :: xs) = printJson x ++ u := by
  cases xs with
  | nil => exact ⟨[], by rw [printElems]; simp⟩
  | cons y ys => exact ⟨',' :: printElems (y :: ys), by rw [printElems]⟩

theorem printFields_cons (k : List Char) (v : Json) (fs : List (List Char × Json)) :
    ∃ u, printFields ((k, v) :: fs) =
      '"' :: (escString k ++ '"' :: ':' :: (printJson v ++ u)) := by
  cases fs with
  | nil =>
      refine ⟨[], ?_⟩
      rw [printFields]
      simp
  | cons f fs' =>
      refine ⟨',' :: printFields (f :: fs'), ?_⟩
      rw [printFields]
      simp

theorem intDigits_head (m : Int) :
    ∃ c t, intDigits m = c :: t ∧ (c = '-' ∨ c.isDigit = true) := by
  rw [intDigits]
  split
  · exact ⟨'-', natDigits m.natAbs, rfl, Or.inl rfl⟩
  · cases hnd : natDigits m.natAbs with
    | nil => exact absurd hnd (natDigits_ne_nil _)
    | cons c t =>
        refine ⟨c, t, rfl, Or.inr ?_⟩
        exact natDigits_digits _ c (by rw [hnd]; simp)

theorem printJson_head (j : Json) :
    ∃ c t, printJson j = c :: t ∧ jsonWs c = false ∧ c ≠ ']' ∧ c ≠ '\x7d' := by
  cases j with
  | null => exact ⟨'n', _, by rw [printJson], by decide, by decide, by decide⟩
  | bool b =>
      cases b with
      | true => exact ⟨'t', _, by rw [printJson], by decide, by decide, by decide⟩
      | false => exact ⟨'f', _, by rw [printJson], by decide, by decide, by decide⟩
  | num m =>
      obtain ⟨c, t, heq, hc⟩ := intDigits_head m
      have hfacts : jsonWs c = false ∧ c ≠ ']' ∧ c ≠ '\x7d' := by
        rcases hc with rfl | hd
        · exact ⟨by decide, by decide, by decide⟩
        · obtain ⟨h1, _, _, _, _, _, _, _, h9, h10⟩ := isDigit_not_special hd
          exact ⟨h1, h9, h10⟩
      exact ⟨c, t, by rw [printJson]; exact heq, hfacts.1, hfacts.2.1, hfacts.2.2⟩
  | str s => exact ⟨'"', _, by rw [printJson], by decide, by decide, by decide⟩
  | arr xs => exact ⟨'[', _, by rw [printJson], by decide, by decide, by decide⟩
  | obj fs => exact ⟨'\x7b', _, by rw [printJson], by decide, by decide, by decide⟩

theorem parseValue_null (f : Nat) (rest : List Char) :
    parseValue (f + 1) ('n' :: 'u' :: 'l' :: 'l' :: rest) = some (.null, rest) := by
  rw [parseValue]
  simp [skipWs, jsonWs, expectChars]

theorem parseValue_true (f : Nat) (rest : List Char) :
    parseValue (f + 1) ('t' :: 'r' :: 'u' :: 'e' :: rest) = some (.bool true, rest) := by
  rw [parseValue]
  simp [skipWs, jsonWs, expectChars]

theorem parseValue_false (f : Nat) (rest : List Char) :
    parseValue (f + 1) ('f' :: 'a' :: 'l' :: 's' :: 'e' :: rest) =
      some (.bool false, rest) := by
  rw [parseValue]
  simp [skipWs, jsonWs, expectChars]

theorem parseValue_str (f : Nat) (s rest : List Char) :
    parseValue (f + 1) ('"' :: (escString s ++ '"' :: rest)) = some (.str s, rest) := by
  rw [parseValue]
  simp [skipWs, jsonWs, parseStringBody_round]

theorem parseValue_arrNil (f : Nat) (rest : List Char) :
    parseValue (f + 1) ('[' :: ']' :: rest) = some (.arr [], rest) := by
  rw [parseValue]
  simp [skipWs, jsonWs]

theorem parseValue_arrCons (f : Nat) (c : Char) (t : List Char)
    (hws : jsonWs c = false) (hbr : c ≠ ']') :
    parseValue (f + 1) ('[' :: c :: t) =
      (parseElems f (c :: t)).map fun p => (Json.arr p.1, p.2) := by
  rw [parseValue, skipWs_cons (by decide : jsonWs '[' = false)]
  simp [skipWs_cons hws, hbr]

theorem parseValue_objNil (f : Nat) (rest : List Char) :
    parseValue (f + 1) ('\x7b' :: '\x7d' :: rest) = some (.obj [], rest) := by
  rw [parseValue]
  simp [skipWs, jsonWs]

theorem parseValue_objCons (f : Nat) (c : Char) (t : List Char)
    (hws : jsonWs c = false) (hbr : c ≠ '\x7d') :
    parseValue (f + 1) ('\x7b' :: c :: t) =
      (parseFields f (c :: t)).map fun p => (Json.obj p.1, p.2) := by
  rw [parseValue, skipWs_cons (by decide : jsonWs '\x7b' = false)]
  simp [skipWs_cons hws, hbr]

theorem parseValue_num (f : Nat) (m : Int) (rest : List Char)
    (hrest : isDigitHead rest = false) :
    parseValue (f + 1) (intDigits m ++ rest) = some (.num m, rest) := by
  by_cases hm : m < 0
  · rw [intDigits, if_pos hm, List.cons_append, parseValue,
      skipWs_cons (by decide : jsonWs '-' = false)]
    have hdh : isDigitHead (natDigits m.natAbs ++ rest) = true := by
      cases hnd : natDigits m.natAbs with
      | nil => exact absurd hnd (natDigits_ne_nil _)
      | cons c t =>
          rw [List.cons_append, isDigitHead]
          exact natDigits_digits _ c (by rw [hnd]; simp)
    have hneg : -((m.natAbs : Nat) : Int) = m := by omega
    simp only [hdh, parseDigitsAux_natDigits _ _ hrest, hneg]
    simp
  · rw [intDigits, if_neg hm]
    cases hnd : natDigits m.natAbs with
    | nil => exact absurd hnd (natDigits_ne_nil _)
    | cons c t =>
        have hd : c.isDigit = true := natDigits_digits _ c (by rw [hnd]; simp)
        obtain ⟨hws, hn, ht, hf, hq, hminus, hlb, hlbr, _, _⟩ := isDigit_not_special hd
        rw [List.cons_append, parseValue, skipWs_cons hws]
        have hpd : parseDigitsAux 0 (c :: (t ++ rest)) = (m.natAbs, rest) := by
          rw [← List.cons_append, ← hnd]
          exact parseDigitsAux_natDigits _ _ hrest
        have hcast : ((m.natAbs : Nat) : Int) = m := by omega
        simp only [hn, ht, hf, hq, hminus, hlb, hlbr, if_neg, hd, if_pos, hpd, hcast]
        simp

theorem jsonSize_pos (j : Json) : 1 ≤ jsonSize j := by
  cases j <;> simp [jsonSize]

theorem size_le_printLength (n : Nat) :
    (∀ j, jsonSize j ≤ n → jsonSize j ≤ (printJson j).length) ∧
    (∀ xs, elemsSize xs ≤ n → elemsSize xs ≤ (printElems xs).length + 1) ∧
    (∀ fs, fieldsSize fs ≤ n → fieldsSize fs ≤ (printFields fs).length + 1) := by
  induction n with
  | zero =>
      refine ⟨?_, ?_, ?_⟩
      · intro j hj
        exact absurd hj (by have := jsonSize_pos j; omega)
      · intro xs hxs
        cases xs with
        | nil => simp [elemsSize]
        | cons x xs' => simp [elemsSize] at hxs
      · intro fs hfs
        cases fs with
        | nil => simp [fieldsSize]
        | cons f fs' =>
            obtain ⟨k, v⟩ := f
            simp [fieldsSize] at hfs
  | succ n ih =>
      obtain ⟨ihJ, ihE, ihF⟩ := ih
      refine ⟨?_, ?_, ?_⟩
      · intro j _
        cases j with
        | null => simp [jsonSize, printJson]
        | bool b => cases b <;> simp [jsonSize, printJson]
        | num m =>
            obtain ⟨c, t, heq, _⟩ := intDigits_head m
            simp [jsonSize, printJson, heq]
        | str s => simp [jsonSize, printJson]
        | arr xs =>
            rename_i hj
            have hx : elemsSize xs ≤ n := by simp [jsonSize] at hj; omega
            have h1 := ihE xs hx
            simp only [jsonSize, printJson, List.length_cons, List.length_append,
              List.length_singleton]
            omega
        | obj fs =>
            rename_i hj
            have hx : fieldsSize fs ≤ n := by simp [jsonSize] at hj; omega
            have h1 := ihF fs hx
            simp only [jsonSize, printJson, List.length_cons, List.length_append,
              List.length_singleton]
            omega
      · intro xs hxs
        cases xs with
        | nil => simp [elemsSize]
        | cons x xs' =>
            have hx : jsonSize x ≤ n := by simp [elemsSize] at hxs; omega
            have h1 := ihJ x hx
            cases xs' with
            | nil =>
                simp only [elemsSize, printElems] at *
                omega
            | cons y ys =>
                have hrest : elemsSize (y :: ys) ≤ n := by
                  simp only [elemsSize] at hxs ⊢
                  omega
                have h2 := ihE (y :: ys) hrest
                simp only [elemsSize, printElems, List.length_append, List.length_cons] at *
                omega
      · intro fs hfs
        cases fs with
        | nil => simp [fieldsSize]
        | cons f fs' =>
            obtain ⟨k, v⟩ := f
            have hv : jsonSize v ≤ n := by simp [fieldsSize] at hfs; omega
            have h1 := ihJ v hv
            cases fs' with
            | nil =>
                simp only [fieldsSize, printFields, List.length_cons, List.length_append] at *
                omega
            | cons g gs =>
                have hrest : fieldsSize (g :: gs) ≤ n := by
                  obtain ⟨k2, v2⟩ := g
                  simp only [fieldsSize] at hfs ⊢
                  omega
                have h2 := ihF (g :: gs) hrest
                simp only [fieldsSize, printFields, List.length_append, List.length_cons] at *
                omega

theorem parse_print_round (fuel : Nat) :
    (∀ j rest, jsonSize j < fuel → isDigitHead rest = false →
        parseValue fuel (printJson j ++ rest) = some (j, rest)) ∧
    (∀ xs rest, elemsSize xs < fuel → xs ≠ [] →
        parseElems fuel (printElems xs ++ ']' :: rest) = some (xs, rest)) ∧
    (∀ fs rest, fieldsSize fs < fuel → fs ≠ [] →
        parseFields fuel (printFields fs ++ '\x7d' :: rest) = some (fs, rest)) := by
  induction fuel with
  | zero =>
      refine ⟨?_, ?_, ?_⟩
      · intro j rest h _; exact absurd h (Nat.not_lt_zero _)
      · intro xs rest h _; exact absurd h (Nat.not_lt_zero _)
      · intro fs rest h _; exact absurd h (Nat.not_lt_zero _)
  | succ f ih =>
      obtain ⟨ihV, ihE, ihF⟩ := ih
      refine ⟨?_, ?_, ?_⟩
      · intro j rest hsz hrest
        cases j with
        | null => rw [printJson]; simpa using parseValue_null f rest
        | bool b =>
            cases b with
            | true => rw [printJson]; simpa using parseValue_true f rest
            | false => rw [printJson]; simpa using parseValue_false f rest
        | num m => rw [printJson]; exact parseValue_num f m rest hrest
        | str s =>
            rw [printJson]
            have hshape : ('"' :: (escString s ++ ['"'])) ++ rest =
                '"' :: (escString s ++ '"' :: rest) := by simp
            rw [hshape]
            exact parseValue_str f s rest
        | arr xs =>
            cases xs with
            | nil =>
                rw [printJson, printElems]
                simpa using parseValue_arrNil f rest
            | cons x xs' =>
                rw [printJson]
                obtain ⟨u, hu⟩ := printElems_cons x xs'
                obtain ⟨c, t2, hpr, hws, hbr, _⟩ := printJson_head x
                have hshape : ('[' :: (printElems (x :: xs') ++ [']'])) ++ rest =
                    '[' :: c :: (t2 ++ (u ++ ']' :: rest)) := by
                  rw [hu, hpr]; simp
                rw [hshape, parseValue_arrCons f c _ hws hbr]
                have heq2 : c :: (t2 ++ (u ++ ']' :: rest)) =
                    printElems (x :: xs') ++ ']' :: rest := by
                  rw [hu, hpr]; simp
                rw [heq2, ihE (x :: xs') rest
                  (by simp only [jsonSize] at hsz; omega) (by simp)]
                rfl
        | obj fs =>
            cases fs with
            | nil =>
                rw [printJson, printFields]
                simpa using parseValue_objNil f rest
            | cons kv fs' =>
                obtain ⟨k, v⟩ := kv
                rw [printJson]
                obtain ⟨u, hu⟩ := printFields_cons k v fs'
                have hshape : ('\x7b' :: (printFields ((k, v) :: fs') ++ ['\x7d'])) ++ rest =
                    '\x7b' :: '"' :: ((escString k ++ '"' :: ':' :: (printJson v ++ u)) ++
                      ('\x7d' :: rest)) := by
                  rw [hu]; simp
                rw [hshape, parseValue_objCons f '"' _ (by decide) (by decide)]
                have heq2 : '"' :: ((escString k ++ '"' :: ':' :: (printJson v ++ u)) ++
                    ('\x7d' :: rest)) = printFields ((k, v) :: fs') ++ '\x7d' :: rest := by
                  rw [hu]; simp
                rw [heq2, ihF ((k, v) :: fs') rest
                  (by simp only [jsonSize] at hsz; omega) (by simp)]
                rfl
      · intro xs rest hsz hne
        cases xs with
        | nil => exact absurd rfl hne
        | cons x xs' =>
            cases xs' with
            | nil =>
                rw [printElems, parseElems,
                  ihV x (']' :: rest) (by simp only [elemsSize] at hsz; omega) rfl]
                simp [skipWs_cons (by decide : jsonWs ']' = false)]
            | cons y ys =>
                rw [printElems]
                have hshape : (printJson x ++ ',' :: printElems (y :: ys)) ++ ']' :: rest =
                    printJson x ++ (',' :: (printElems (y :: ys) ++ ']' :: rest)) := by
                  simp
                rw [parseElems, hshape,
                  ihV x (',' :: (printElems (y :: ys) ++ ']' :: rest))
                    (by simp only [elemsSize] at hsz; omega) rfl]
                simp only [Option.some_bind, skipWs_cons (by decide : jsonWs ',' = false)]
                rw [ihE (y :: ys) rest (by simp only [elemsSize] at hsz ⊢; omega) (by simp)]
                simp
      · intro fs rest hsz hne
        cases fs with
        | nil => exact absurd rfl hne
        | cons kv fs' =>
            obtain ⟨k, v⟩ := kv
            cases fs' with
            | nil =>
                rw [printFields]
                have hshape : ('"' :: (escString k ++ '"' :: ':' :: printJson v)) ++
                    '\x7d' :: rest =
                    '"' :: (escString k ++ '"' :: (':' :: (printJson v ++ '\x7d' :: rest))) := by
                  simp
                rw [parseFields, hshape]
                simp only [skipWs_cons (by decide : jsonWs '"' = false)]
                simp only [parseStringBody_round k (':' :: (printJson v ++ '\x7d' :: rest))]
                simp only [Option.some_bind, skipWs_cons (by decide : jsonWs ':' = false)]
                rw [ihV v ('\x7d' :: rest) (by simp only [fieldsSize] at hsz; omega) rfl]
                simp [skipWs_cons (by decide : jsonWs '\x7d' = false)]
            | cons g gs =>
                rw [printFields]
                have hshape : (('"' :: (escString k ++ '"' :: ':' :: printJson v)) ++
                    ',' :: printFields (g :: gs)) ++ '\x7d' :: rest =
                    '"' :: (escString k ++ '"' :: (':' :: (printJson v ++
                      (',' :: (printFields (g :: gs) ++ '\x7d' :: rest))))) := by
                  simp
                rw [parseFields, hshape]
                simp only [skipWs_cons (by decide : jsonWs '"' = false)]
                simp only [parseStringBody_round k
                  (':' :: (printJson v ++ (',' :: (printFields (g :: gs) ++ '\x7d' :: rest))))]
                simp only [Option.some_bind, skipWs_cons (by decide : jsonWs ':' = false)]
                rw [ihV v (',' :: (printFields (g :: gs) ++ '\x7d' :: rest))
                  (by simp only [fieldsSize] at hsz; omega) rfl]
                simp only [Option.some_bind, skipWs_cons (by decide : jsonWs ',' = false)]
                rw [ihF (g :: gs) rest (by simp only [fieldsSize] at hsz ⊢; omega) (by simp)]
                simp

theorem headWsStar_iff (s : List Char) :
    headWsStar s = true ↔ ∃ c t, s = c :: t ∧ wsStar c = true := by
  cases s with
  | nil => simp [headWsStar]
  | cons c t =>
      simp only [headWsStar]
      constructor
      · intro h; exact ⟨c, t, rfl, h⟩
      · rintro ⟨c', t', heq, hws⟩
        simp only [List.cons.injEq] at heq
        obtain ⟨rfl, rfl⟩ := heq
        exact hws

theorem importFromTail_iff (s : List Char) :
    importFromTail s = true ↔
      ∃ c suf, s = c :: ('f' :: 'r' :: 'o' :: 'm' :: suf) ∧ wsStar c = true ∧
        headWsStar suf = true := by
  cases s with
  | nil => simp [importFromTail]
  | cons c rest =>
      simp only [importFromTail, Bool.and_eq_true]
      constructor
      · rintro ⟨⟨hws, hpre⟩, hdrop⟩
        rw [List.isPrefixOf_iff_prefix] at hpre
        obtain ⟨t, ht⟩ := hpre
        refine ⟨c, t, ?_, hws, ?_⟩
        · rw [← ht]; rfl
        · rw [← ht] at hdrop; simpa using hdrop
      · rintro ⟨c', suf, heq, hws, hhead⟩
        simp only [List.cons.injEq] at heq
        obtain ⟨rfl, rfl⟩ := heq
        refine ⟨⟨hws, ?_⟩, ?_⟩
        · rw [List.isPrefixOf_iff_prefix]; exact ⟨suf, rfl⟩
        · simpa using hhead

theorem importGroupScan_iff (s : List Char) :
    importGroupScan s = true ↔
      ∃ g rest, s = g ++ rest ∧ g ≠ [] ∧ (∀ x ∈ g, importGroupChar x = true) ∧
        importFromTail rest = true := by
  induction s with
  | nil =>
      simp only [importGroupScan]
      constructor
      · intro h; cases h
      · rintro ⟨g, rest, heq, hne, _, _⟩
        exfalso
        cases g with
        | nil => exact hne rfl
        | cons a g' => simp at heq
  | cons c s' ih =>
      simp only [importGroupScan, Bool.and_eq_true, Bool.or_eq_true]
      constructor
      · rintro ⟨hc, h | h⟩
        · exact ⟨[c], s', rfl, by simp, by simp [hc], h⟩
        · obtain ⟨g, rest, heq, hne, hall, htail⟩ := ih.mp h
          refine ⟨c :: g, rest, by simp [heq], by simp, ?_, htail⟩
          intro x hx
          rcases List.mem_cons.mp hx with rfl | hx
          · exact hc
          · exact hall x hx
      · rintro ⟨g, rest, heq, hne, hall, htail⟩
        cases g with
        | nil => exact absurd rfl hne
        | cons a g' =>
            simp only [List.cons_append, List.cons.injEq] at heq
            obtain ⟨rfl, rfl⟩ := heq
            refine ⟨hall c (by simp), ?_⟩
            cases g' with
            | nil => left; simpa using htail
            | cons b g'' =>
                right
                exact ih.mpr ⟨b :: g'', rest, by simp, by simp,
                  fun x hx => hall x (List.mem_cons_of_mem c hx), htail⟩

theorem importRegexSearch_iff (s : List Char) :
    importRegexSearch s = true ↔
      ∃ pre post, s = pre ++ ('i' :: 'm' :: 'p' :: 'o' :: 'r' :: 't' :: post) ∧
        afterImport post = true := by
  induction s with
  | nil =>
      simp only [importRegexSearch]
      constructor
      · intro h; cases h
      · rintro ⟨pre, post, heq, _⟩
        exfalso
        cases pre <;> simp at heq
  | cons c s' ih =>
      simp only [importRegexSearch, Bool.or_eq_true, Bool.and_eq_true]
      constructor
      · rintro (⟨hpre, haft⟩ | h)
        · rw [List.isPrefixOf_iff_prefix] at hpre
          obtain ⟨t, ht⟩ := hpre
          refine ⟨[], t, ?_, ?_⟩
          · rw [← ht]; rfl
          · rw [← ht] at haft; simpa using haft
        · obtain ⟨pre, post, heq, haft⟩ := ih.mp h
          exact ⟨c :: pre, post, by simp [heq], haft⟩
      · rintro ⟨pre, post, heq, haft⟩
        cases pre with
        | nil =>
            left
            simp only [List.nil_append, List.cons.injEq] at heq
            obtain ⟨rfl, rfl⟩ := heq
            refine ⟨?_, by simpa using haft⟩
            rw [List.isPrefixOf_iff_prefix]
            exact ⟨post, rfl⟩
        | cons d pre' =>
            right
            simp only [List.cons_append, List.cons.injEq] at heq
            obtain ⟨rfl, rfl⟩ := heq
            exact ih.mpr ⟨pre', post, rfl, haft⟩

theorem afterImport_iff (post : List Char) :
    afterImport post = true ↔ ImportShapeTail post := by
  rw [afterImport, Bool.or_eq_true, ImportShapeTail, headWsStar_iff, importGroupScan_iff]
  constructor
  · rintro (⟨c, t, rfl, hws⟩ | ⟨g, rest, rfl, hne, hall, htail⟩)
    · exact Or.inl ⟨c, t, rfl, hws⟩
    · rw [importFromTail_iff] at htail
      obtain ⟨c, suf, rfl, hws, hhead⟩ := htail
      rw [headWsStar_iff] at hhead
      obtain ⟨d, t, rfl, hd⟩ := hhead
      exact Or.inr ⟨g, c, d :: t, rfl, hne, hall, hws, d, t, rfl, hd⟩
  · rintro (⟨c, t, rfl, hws⟩ | ⟨g, c, rest, rfl, hne, hall, hws, d, t, rfl, hd⟩)
    · exact Or.inl ⟨c, t, rfl, hws⟩
    · refine Or.inr ⟨g, c :: 'f' :: 'r' :: 'o' :: 'm' :: d :: t, rfl, hne, hall, ?_⟩
      rw [importFromTail_iff]
      exact ⟨c, d :: t, rfl, hws, by rw [headWsStar_iff]; exact ⟨d, t, rfl, hd⟩⟩

theorem jsVisitorImportIsMatch_iff (line : String) :
    jsVisitorImportIsMatch line = true ↔ ImportShape line := by
  rw [jsVisitorImportIsMatch, ImportShape, importRegexSearch_iff]
  constructor
  · rintro ⟨pre, post, heq, haft⟩
    exact ⟨pre, post, heq, (afterImport_iff post).mp haft⟩
  · rintro ⟨pre, post, heq, hsh⟩
    exact ⟨pre, post, heq, (afterImport_iff post).mpr hsh⟩

/-! ## The claims -/

/-- C5: invocation of `process` with an absent configuration payload returns
the original program and emits exactly one diagnostic, the `ConfigMissing`
message.  The theorem holds for every host environment, so the result depends
on neither the filesystem nor the engine capabilities: no file is read and no
script is evaluated. -/
theorem missing_config_returns_original_with_one_diag {P : Type} (env : HostEnv P)
    (program : P) :
    process env program none = some (program, [configMissingMsg]) := rfl

/-- C6: when the payload parses into a configuration whose
`transformImplPath` is unset, `process` emits the `ImplPathMissing`
diagnostic and returns the original program unchanged. -/
theorem impl_path_unset_fails_with_impl_path_missing {P : Type} (env : HostEnv P)
    (program : P) (s : String) (cfg : TransformPluginConfig)
    (hparse : parseConfig s = .ok cfg) (hpath : cfg.transform_impl_path = none) :
    process env program (some s) = some (program, [implPathMissingMsg]) := by
  simp [process, build_transform_context, hparse, hpath]

/-- Witness for C6 at the concrete payload naming only a visitor class. -/
theorem impl_path_unset_witness :
    process evalFailEnv () (some nameOnlyPayload) = some ((), [implPathMissingMsg]) :=
  impl_path_unset_fails_with_impl_path_missing evalFailEnv () nameOnlyPayload
    ⟨none, some "V"⟩ (by rfl) rfl

/-- C7: when `transformImplPath` is set, the file is read from that path
resolved against the fixed root `/cwd` (`resolvePath`); every read failure
yields the `ImplReadError` diagnostic and the original program, and a
successful read makes the file's full contents the context's
`transform_impl`. -/
theorem impl_path_read_behavior {P : Type} (env : HostEnv P) (program : P)
    (s : String) (cfg : TransformPluginConfig) (path : String)
    (hparse : parseConfig s = .ok cfg)
    (hpath : cfg.transform_impl_path = some path) :
    (∀ err, env.readFile (resolvePath path) = .error err →
        process env program (some s) = some (program, [implReadErrMsg err])) ∧
    (∀ content, env.readFile (resolvePath path) = .ok content →
        build_transform_context env.readFile (some s) =
          (some ⟨content, cfg.visitor_class_name.getD "TransformVisitor"⟩, [])) := by
  constructor
  · intro err hread; simp [process, build_transform_context, hparse, hpath, hread]
  · intro content hread; simp [build_transform_context, hparse, hpath, hread]

/-- Witness for C7 at a failing filesystem read. -/
theorem impl_path_read_witness :
    process readFailEnv () (some implOnlyPayload) = some ((), [implReadErrMsg "ENOENT"]) :=
  (impl_path_read_behavior readFailEnv () implOnlyPayload ⟨some "t.js", none⟩ "t.js"
    (by rfl) rfl).1 "ENOENT" rfl

/-- C8: when `visitorClassName` is unset the resolved context uses the
default identifier `TransformVisitor`, and when it is set the supplied name is
used; in both cases the synthesized trailer, the last assembled line,
instantiates exactly the context's class name. -/
theorem visitor_class_name_resolution {P : Type} (env : HostEnv P)
    (s : String) (cfg : TransformPluginConfig) (path content : String)
    (hparse : parseConfig s = .ok cfg)
    (hpath : cfg.transform_impl_path = some path)
    (hread : env.readFile (resolvePath path) = .ok content) :
    ∃ ctx, build_transform_context env.readFile (some s) = (some ctx, []) ∧
      (cfg.visitor_class_name = none →
        ctx.transform_visitor_class_name = "TransformVisitor") ∧
      (∀ n, cfg.visitor_class_name = some n → ctx.transform_visitor_class_name = n) ∧
      (assembledLines env.frameworkText ctx).getLast? =
        some (trailerCode ctx.transform_visitor_class_name) := by
  refine ⟨⟨content, cfg.visitor_class_name.getD "TransformVisitor"⟩, ?_, ?_, ?_, ?_⟩
  · simp [build_transform_context, hparse, hpath, hread]
  · intro h; simp [h]
  · intro n h; simp [h]
  · exact List.getLast?_concat _

/-- Witness for C8 at the concrete payload naming a custom visitor class. -/
theorem visitor_class_name_witness :
    ∃ ctx, build_transform_context okReadFile (some namedVisitorPayload) = (some ctx, []) ∧
      ctx.transform_visitor_class_name = "MyVisitor" := by
  obtain ⟨ctx, h1, _, h3, _⟩ :=
    visitor_class_name_resolution (P := Unit)
      ⟨"", fun _ => .ok "", fun _ => .error "", okReadFile, fun _ => .ok (),
        fun _ => .error ""⟩
      namedVisitorPayload ⟨some "t.js", some "MyVisitor"⟩ "t.js" "code"
      (by rfl) rfl rfl
  exact ⟨ctx, h1, h3 "MyVisitor" rfl⟩

/-- C3: on every failure branch of the pipeline — configuration resolution,
AST serialization, global binding, evaluation, result deserialization — the
executor emits a diagnostic through the handler and returns the original
input program unchanged. -/
theorem failure_branches_return_original {P : Type} (env : HostEnv P) (program : P)
    (payload : Option String) :
    (∀ diags, build_transform_context env.readFile payload = (none, diags) →
        process env program payload = some (program, diags) ∧ diags ≠ []) ∧
    (∀ ctx diags err, build_transform_context env.readFile payload = (some ctx, diags) →
        env.serializeAst program = .error err →
        process env program payload = some (program, diags ++ [serializeErrMsg err])) ∧
    (∀ ctx diags ast err, build_transform_context env.readFile payload = (some ctx, diags) →
        env.serializeAst program = .ok ast →
        env.bindAst ast = .error err →
        process env program payload = some (program, diags ++ [bindErrMsg err])) ∧
    (∀ ctx diags ast err, build_transform_context env.readFile payload = (some ctx, diags) →
        env.serializeAst program = .ok ast →
        env.bindAst ast = .ok () →
        env.evalJs (assembleCode env.frameworkText ctx) = .error err →
        process env program payload = some (program, diags ++ [evalErrMsg err])) ∧
    (∀ ctx diags ast txt err, build_transform_context env.readFile payload = (some ctx, diags) →
        env.serializeAst program = .ok ast →
        env.bindAst ast = .ok () →
        env.evalJs (assembleCode env.frameworkText ctx) = .ok (JsValue.str txt) →
        env.deserializeAst txt = .error err →
        process env program payload = some (program, diags ++ [deserializeErrMsg err])) := by
  refine ⟨?_, ?_, ?_, ?_, ?_⟩
  · intro diags hb
    exact ⟨by simp [process, hb], build_transform_context_none_ne_nil hb⟩
  · intro ctx diags err hb hser
    simp [process, hb, hser]
  · intro ctx diags ast err hb hser hbind
    simp [process, hb, hser, hbind]
  · intro ctx diags ast err hb hser hbind heval
    simp [process, hb, hser, hbind, heval]
  · intro ctx diags ast txt err hb hser hbind heval hdeser
    simp [process, hb, hser, hbind, heval, JsValue.asString, hdeser]

/-- Witness for C3 at a concrete environment whose evaluation stage fails. -/
theorem failure_branches_witness :
    process evalFailEnv () (some implOnlyPayload) = some ((), [evalErrMsg "boom"]) := by
  have h := (failure_branches_return_original evalFailEnv () (some implOnlyPayload)).2.2.2.1
  exact h ⟨"impl", "TransformVisitor"⟩ [] "ast" "boom" (by rfl) rfl rfl rfl

/-- C1 (refuted; the code contradicts the fail-soft protocol it implements on
every other path): when the evaluated script's final value is not a string —
for example when the user visitor's `visitProgram` returns `undefined`, making
the trailer's `JSON.stringify` evaluate to `undefined` — the entry point does
not return a `Program`: `transform_result.unwrap().as_string().unwrap()`
(lib.rs lines 123-127) unwraps `None` and panics, modelled here as `process`
evaluating to `none`. -/
theorem nonstring_eval_result_panics :
    process panicEnv () (some implOnlyPayload) = none := rfl

/-- C9: the assembled program text is exactly, newline-joined and in this
order: the framework text with its module-export declaration lines removed,
the sanitized user transform text, and the single synthesized trailer
expression, which parses the `ast` global, instantiates the visitor class,
calls `visitProgram` on the parsed tree and re-serializes the result. -/
theorem assembled_program_shape (frameworkText : String) (ctx : TransformContext) :
    assembleCode frameworkText ctx =
      String.intercalate "\n"
        (visitorFrameworkLines frameworkText ++ transformImplLines ctx.transform_impl ++
          [trailerCode ctx.transform_visitor_class_name]) ∧
    trailerCode ctx.transform_visitor_class_name =
      "JSON.stringify((new " ++ ctx.transform_visitor_class_name ++
        "()).visitProgram(JSON.parse(ast)))" := by
  constructor
  · rw [assembleCode, joinNl_eq_intercalate, assembledLines, List.append_assoc]
  · rfl

/-- C10: the payload `"{}"` — and likewise any JSON object omitting both
known fields — parses successfully with both fields defaulting to unset, so
the invocation fails with the `ImplPathMissing` diagnostic (not
`ConfigMalformed`) and returns the original program; this is distinct from
the absent-payload `ConfigMissing` case. -/
theorem empty_config_object_fails_with_impl_path_missing :
    parseConfig "\x7b\x7d" = .ok ⟨none, none⟩ ∧
    (∀ (s : String) (fields : List (List Char × Json)),
        parseJson s = some (.obj fields) →
        (∀ kv ∈ fields,
            kv.1 ≠ "transformImplPath".data ∧ kv.1 ≠ "visitorClassName".data) →
        parseConfig s = .ok ⟨none, none⟩) ∧
    (∀ {P : Type} (env : HostEnv P) (program : P),
        process env program (some "\x7b\x7d") = some (program, [implPathMissingMsg])) ∧
    implPathMissingMsg ≠ configMissingMsg := by
  refine ⟨rfl, ?_, ?_, by decide⟩
  · intro s fields hp hk
    simp only [parseConfig, hp]
    exact readConfigFields_unknown fields none none false false hk
  · intro P env program
    have hb : build_transform_context env.readFile (some "\x7b\x7d") =
        (none, [implPathMissingMsg]) := rfl
    simp [process, hb]

/-- Witness for C10 at a payload whose only field is unknown. -/
theorem empty_config_object_witness :
    parseConfig "\x7b\"other\":1\x7d" = .ok ⟨none, none⟩ :=
  empty_config_object_fails_with_impl_path_missing.2.1 "\x7b\"other\":1\x7d"
    [("other".data, Json.num 1)] (by rfl) (by decide)

/-- C4: for every Program value representable in the host schema (modelled as
a `Json` interchange tree), deserializing the serialization
(`serde_json::from_str` of `serde_json::to_string`) succeeds and yields a
value structurally equal to the original. -/
theorem serde_round_trip (p : Json) : parseJson (serializeJson p) = some p := by
  have hsz : jsonSize p ≤ (printJson p).length :=
    (size_le_printLength (jsonSize p)).1 p le_rfl
  have h := (parse_print_round ((printJson p).length + 1)).1 p [] (by omega) rfl
  rw [List.append_nil] at h
  have hdata : (serializeJson p).data = printJson p := rfl
  have hlen : (serializeJson p).length = (printJson p).length := rfl
  rw [parseJson, hlen, hdata, h]
  simp [skipWs]

/-- C2 counterexample: the line `import foo from "bar"` does not reference the
framework module `@swc/core/Visitor` by name at all, yet the sanitization
removes it — the module name is optional in `JS_VISITOR_IMPORT_REGEX`, so the
pattern matches imports of any module. -/
theorem import_stripping_cex :
    mentionsVisitorModule "import foo from \"bar\"" = false ∧
    jsVisitorImportIsMatch "import foo from \"bar\"" = true ∧
    transformImplLines "import foo from \"bar\"" = [] :=
  ⟨by decide, by decide, by decide⟩

/-- C2 (corrected): the sanitization keeps exactly the lines on which the
regex pattern finds no match; a matched (removed) line is one that contains
the literal `import` followed either by one whitespace-or-asterisk character
or by a non-empty binding group, whitespace-or-asterisk, `from`, and
whitespace-or-asterisk — regardless of which module, if any, the line
references, since the module name is optional in the pattern. -/
theorem import_stripping_keeps_unmatched_lines (u line : String) :
    line ∈ transformImplLines u ↔ line ∈ rustLines u ∧ ¬ ImportShape line := by
  rw [transformImplLines, List.mem_filter]
  constructor
  · rintro ⟨hm, hf⟩
    refine ⟨hm, fun hsh => ?_⟩
    rw [Bool.not_eq_true'] at hf
    exact absurd ((jsVisitorImportIsMatch_iff line).mpr hsh) (by simp [hf])
  · rintro ⟨hm, hsh⟩
    refine ⟨hm, ?_⟩
    rw [Bool.not_eq_true']
    cases hmatch : jsVisitorImportIsMatch line
    · rfl
    · exact absurd ((jsVisitorImportIsMatch_iff line).mp hmatch) hsh

/-- Witness for C2 (corrected) at a concrete user transform: the non-import
line survives sanitization. -/
theorem import_stripping_witness :
    "const x = 1" ∈ transformImplLines "import foo from \"bar\"\nconst x = 1" := by
  refine (import_stripping_keeps_unmatched_lines _ _).mpr ⟨by decide, fun hsh => ?_⟩
  exact absurd ((jsVisitorImportIsMatch_iff "const x = 1").mpr hsh) (by decide)

end SwcJsTransformer
